import Mathlib

/-!
Shallow embedding of `src/main.py` (macOS Voice Memos exporter).

The script reads rows `(ZDATE, ZDURATION, ZCUSTOMLABEL, ZPATH)` from a
database, and for each row resolves a source and destination path, decides
export versus skip (batch flag or one keystroke), copies the file, sets its
modification time, and logs failures to `<export_path>/failed_exports.txt`
while keeping two counters.

Modelling conventions:
* Paths and labels are Lean `String`s; the filesystem is an association
  list from path to modification time (`FSType`).  The failure log is kept
  as a list of lines in the run state.
* Timestamps are modelled at whole-second granularity as `Int`.  The
  script stores `_dt_offset = 978307200.825232` and computes
  `datetime.fromtimestamp(row[0] + _dt_offset)`; the modification time it
  later writes is `time.mktime(date.timetuple())`, and `timetuple`
  truncates to whole seconds, so at integer granularity the written time
  is `row[0] + 978307200`.
* `strftime`, the keystroke stream, the wall clock, and injected I/O
  errors (exceptions raised by `copyfile` or `os.utime` for reasons other
  than a missing source) are supplied by an `Env` record, so theorems
  quantify over every behaviour of those collaborators.
* Python library functions used by the script (`os.path.dirname`,
  `os.path.join`, `os.path.splitext`, `str.startswith`, `str.encode`
  with the ascii codec and ignore, `str.replace`) are translated below,
  following the CPython posixpath and genericpath implementations.
-/

/-- One database row: `(ZDATE, ZDURATION, ZCUSTOMLABEL, ZPATH)`.
`zlabel` and `zpath` are nullable in the database. -/
structure Row where
  zdate : Int
  zduration : Int
  zlabel : Option String
  zpath : Option String
  deriving Repr, DecidableEq

/-- The command line configuration (`args` in the script). -/
structure Config where
  dbPath : String
  exportPath : String
  all : Bool
  dateInName : Bool
  dateInNameFormat : String
  deriving Repr, DecidableEq

/-- External collaborators: date formatting, the interactive keystroke for
each record index, injected copy and utime errors (`none` means the call
succeeds), the wall clock at copy time and the printable run start time. -/
structure Env where
  strftime : String → Int → String
  keys : Nat → Nat
  copyErr : String → String → Option String
  utimeErr : String → Option String
  now : Int
  nowStr : String

/-- The filesystem: an association list from absolute path to the
modification time of the file stored there. -/
abbrev FSType := List (String × Int)

/-- First stored value for a path, if any (models `os.path.exists` and
reading back metadata). -/
def fsLookup (fs : FSType) (p : String) : Option Int :=
  match fs with
  | [] => none
  | (q, m) :: t => if q = p then some m else fsLookup t p

/-- `os.path.exists`. -/
def fsExists (fs : FSType) (p : String) : Bool :=
  (fsLookup fs p).isSome

/-- Create or overwrite the file at `p` with modification time `m`. -/
def fsSet (fs : FSType) (p : String) (m : Int) : FSType :=
  match fs with
  | [] => [(p, m)]
  | (q, n) :: t => if q = p then (p, m) :: t else (q, n) :: fsSet t p m

/-- `s.startswith("/")` for a Python str. -/
def startsWithSlash (s : String) : Bool :=
  match s.data with
  | [] => false
  | c :: _ => c = '/'

/-- `s.endswith("/")` for a Python str. -/
def endsWithSlash (s : String) : Bool :=
  match s.data.getLast? with
  | none => false
  | some c => c = '/'

/-- Index of the last occurrence of `a` in the list, if any
(Python `str.rfind` restricted to a one-character needle). -/
def rfindChar (a : Char) : List Char → Option Nat
  | [] => none
  | c :: t =>
    match rfindChar a t with
    | some k => some (k + 1)
    | none => if c = a then some 0 else none

/-- Drop trailing slashes (the rstrip step in posixpath.dirname). -/
def rstripSlash (l : List Char) : List Char :=
  (l.reverse.dropWhile fun c => c = '/').reverse

/-- `os.path.dirname` for POSIX paths: everything up to and including the
final slash, with trailing slashes stripped unless the head is all
slashes. -/
def dirname (p : String) : String :=
  match rfindChar '/' p.data with
  | none => ""
  | some k =>
    let head := p.data.take (k + 1)
    if head.all (fun c => c = '/') then String.mk head
    else String.mk (rstripSlash head)

/-- The extension component of `os.path.splitext`: the part from the last
dot on, provided that dot comes after the last slash and the base name up
to it is not entirely dots. -/
def splitextExt (p : String) : String :=
  let cs := p.data
  let sepIdx : Int := match rfindChar '/' cs with | none => -1 | some k => (k : Int)
  let dotIdx : Int := match rfindChar '.' cs with | none => -1 | some k => (k : Int)
  if sepIdx < dotIdx then
    let base := (cs.take dotIdx.toNat).drop (sepIdx + 1).toNat
    if base.all (fun c => c = '.') then "" else String.mk (cs.drop dotIdx.toNat)
  else ""

/-- `os.path.join` for POSIX paths, two arguments. -/
def pathJoin (a b : String) : String :=
  if startsWithSlash b then b
  else if a = "" ∨ endsWithSlash a then a ++ b
  else a ++ "/" ++ b

/-- `str.replace("/", "_")` applied per character. -/
def deslash (c : Char) : Char :=
  if c = '/' then '_' else c

/-- Line 93 sanitization core, label encoded to ascii with the ignore
handler and decoded back, then slash replaced by underscore: drop every
character outside the ascii range, then replace slashes with
underscores. -/
def sanitizeLabel (s : String) : String :=
  String.mk ((s.data.filter fun c => c.toNat < 128).map deslash)

/-- Line 93 of the script: the sanitized label, with the placeholder for a
null or empty (falsy) raw label. -/
def labelOf (l : Option String) : String :=
  match l with
  | none => "Untitled"
  | some s => if s = "" then "Untitled" else sanitizeLabel s

/-- `path_old_raw = row[3] if row[3] else ""`. -/
def rawPath (row : Row) : String :=
  (row.zpath).getD ""

/-- Integer part of the script constant `_dt_offset = 978307200.825232`
(the offset from the store epoch to the Unix epoch); see the module
comment for why whole seconds suffice. -/
def dtOffset : Int := 978307200

/-- `date = datetime.fromtimestamp(row[0] + _dt_offset)` at whole-second
granularity. -/
def dateOf (row : Row) : Int :=
  row.zdate + dtOffset

/-- `date_str = date.strftime("%d.%m.%Y %H:%M:%S")`. -/
def dateStrOf (env : Env) (row : Row) : String :=
  env.strftime "%d.%m.%Y %H:%M:%S" (dateOf row)

/-- Lines 96-101: the absolute source path.  Empty when the stored path is
falsy; otherwise the stored path itself when absolute, else the stored
path joined onto the directory containing the database. -/
def sourceAbs (cfg : Config) (row : Row) : String :=
  if rawPath row = "" then ""
  else if startsWithSlash (rawPath row) then rawPath row
  else pathJoin (dirname cfg.dbPath) (rawPath row)

/-- Lines 103-104: the destination file name, label plus the extension of
the absolute source path, date-prefixed when requested. -/
def destFilename (cfg : Config) (env : Env) (row : Row) : String :=
  let base := labelOf row.zlabel ++ splitextExt (sourceAbs cfg row)
  if cfg.dateInName then env.strftime cfg.dateInNameFormat (dateOf row) ++ base
  else base

/-- Line 105 (with the line 106-108 sentinel): the destination path inside
the export directory, or empty when there is no stored path. -/
def destPath (cfg : Config) (env : Env) (row : Row) : String :=
  if rawPath row = "" then ""
  else pathJoin cfg.exportPath (destFilename cfg env row)

/-- The reason string raised on line 129. -/
def missingSourceReason : String :=
  "Audio file not found on disk (likely in iCloud)"

/-- Lines 127-133, the body of the try block for a record decided export.
Returns `none` and the new filesystem on success, or `some reason` and the
filesystem as the raised exception left it.  A missing or empty source
raises before any copy; an injected copy error raises before the
destination is written; an injected utime error raises after the copy, so
the copied file (stamped with the wall clock) remains. -/
def execExport (env : Env) (pathOld pathNew : String) (date : Int)
    (fs : FSType) : Option String × FSType :=
  if pathOld = "" ∨ fsExists fs pathOld = false then
    (some missingSourceReason, fs)
  else
    match env.copyErr pathOld pathNew with
    | some e => (some e, fs)
    | none =>
      let fs1 := fsSet fs pathNew env.now
      match env.utimeErr pathNew with
      | some e => (some e, fs1)
      | none => (none, fsSet fs1 pathNew date)

/-- The per-record outcome (spec data model `ExportOutcome`). -/
inductive Outcome
  | Exported
  | Failed (reason : String)
  | Skipped
  deriving Repr, DecidableEq

/-- The run state: the filesystem, the lines of
`failed_exports.txt`, and the two counters of lines 84-85. -/
structure St where
  fs : FSType
  log : List String
  success : Nat
  failed : Nat
  deriving Repr, DecidableEq

/-- Lines 114-124: in batch mode the key is the confirm value 10,
otherwise the keystroke read for record `i`. -/
def keyOf (cfg : Config) (env : Env) (i : Nat) : Nat :=
  if cfg.all then 10 else env.keys i

/-- Line 140: the line appended to the log for a failure. -/
def logLine (env : Env) (row : Row) (reason : String) : String :=
  "FAILED: " ++ dateStrOf env row ++ " | Memo: " ++ labelOf row.zlabel ++
    " | Reason: " ++ reason

/-- Lines 113-145: process one record.  Key 10 runs the export attempt;
success increments `success_count`, an exception is caught, logged as one
appended line and counted in `failed_count`; any other key changes
nothing (key 27 only reprints the row as skipped). -/
def stepRecord (cfg : Config) (env : Env) (i : Nat) (row : Row) (st : St) :
    Outcome × St :=
  if keyOf cfg env i = 10 then
    match execExport env (sourceAbs cfg row) (destPath cfg env row) (dateOf row) st.fs with
    | (none, fs1) =>
      (Outcome.Exported, { st with fs := fs1, success := st.success + 1 })
    | (some e, fs1) =>
      (Outcome.Failed e,
        { st with fs := fs1, log := st.log ++ [logLine env row e],
                  failed := st.failed + 1 })
  else
    (Outcome.Skipped, st)

/-- Lines 76-78: the log file is created truncated with a header line and
a separator of fifty equals signs. -/
def initLog (env : Env) : List String :=
  ["Voice Memos Export Log - " ++ env.nowStr, String.mk (List.replicate 50 '=')]

/-- The state at the start of the loop, over the pre-existing filesystem
`fs0`. -/
def initSt (env : Env) (fs0 : FSType) : St :=
  { fs := fs0, log := initLog env, success := 0, failed := 0 }

/-- Lines 87-145: the loop over the rows, threading the state; `i` is the
index of the next record (used only for the keystroke stream). -/
def runRows (cfg : Config) (env : Env) : List Row → Nat → St → St
  | [], _, st => st
  | r :: rs, i, st => runRows cfg env rs (i + 1) (stepRecord cfg env i r st).2

/-- The whole run on a list of rows. -/
def runMain (cfg : Config) (env : Env) (rows : List Row) (fs0 : FSType) : St :=
  runRows cfg env rows 0 (initSt env fs0)

/-! Concrete sample data used to instantiate theorems. -/

/-- A benign environment: no injected I/O errors, escape key on every
interactive prompt. -/
def wEnv : Env :=
  { strftime := fun _ _ => "D", keys := fun _ => 27,
    copyErr := fun _ _ => none, utimeErr := fun _ => none,
    now := 42, nowStr := "T" }

/-- An environment whose copy calls all raise a permission error. -/
def wEnvErr : Env :=
  { wEnv with copyErr := fun _ _ => some "Permission denied" }

/-- An environment pressing an unrecognized key (the letter q, 113). -/
def wEnvOther : Env :=
  { wEnv with keys := fun _ => 113 }

/-- Batch-mode configuration. -/
def wCfgBatch : Config :=
  { dbPath := "/db/Recordings.db", exportPath := "/out", all := true,
    dateInName := false, dateInNameFormat := "F" }

/-- Interactive-mode configuration. -/
def wCfgInter : Config :=
  { wCfgBatch with all := false }

/-- A row with a relative stored path and label x. -/
def r1 : Row := { zdate := 0, zduration := 5, zlabel := some "x", zpath := some "a.m4a" }

/-- A second row whose destination collides with `r1`. -/
def r2 : Row := { zdate := 1, zduration := 5, zlabel := some "x", zpath := some "b.m4a" }

/-- A second row with a distinct destination. -/
def r3 : Row := { zdate := 1, zduration := 5, zlabel := some "y", zpath := some "b.m4a" }

/-- A row with no stored path (cloud-only recording). -/
def rNoPath : Row := { zdate := 2, zduration := 5, zlabel := some "z", zpath := none }

/-- A row whose label is non-empty but entirely outside ascii. -/
def rUni : Row := { zdate := 3, zduration := 5, zlabel := some "é", zpath := some "a.m4a" }

/-- A filesystem holding both source files under the database directory. -/
def wFs : FSType := [("/db/a.m4a", 0), ("/db/b.m4a", 0)]

/-- The loop state over `wFs` right after initialization. -/
def wSt : St := initSt wEnv wFs

/-! Association-list filesystem lemmas. -/

theorem fsLookup_fsSet (fs : FSType) (p : String) (m : Int) (r : String) :
    fsLookup (fsSet fs p m) r = if p = r then some m else fsLookup fs r := by
  induction fs with
  | nil => simp [fsSet, fsLookup]
  | cons hd t ih =>
    obtain ⟨q, n⟩ := hd
    by_cases hqp : q = p
    · subst hqp
      simp only [fsSet, if_pos rfl, fsLookup]
      by_cases hqr : q = r <;> simp [hqr]
    · simp only [fsSet, if_neg hqp, fsLookup, ih]
      by_cases hqr : q = r
      · subst hqr
        have hpq : ¬p = q := fun hh => hqp hh.symm
        simp [if_neg hpq]
      · simp [hqr]

theorem fsExists_fsSet (fs : FSType) (p : String) (m : Int) (r : String) :
    fsExists (fsSet fs p m) r = if p = r then true else fsExists fs r := by
  unfold fsExists
  rw [fsLookup_fsSet]
  by_cases h : p = r <;> simp [h]

theorem fsExists_fsSet_of_exists (fs : FSType) (p : String) (m : Int) (r : String)
    (h : fsExists fs r = true) : fsExists (fsSet fs p m) r = true := by
  rw [fsExists_fsSet]
  by_cases hpr : p = r <;> simp [hpr, h]

theorem length_fsSet (fs : FSType) (p : String) (m : Int) :
    (fsSet fs p m).length = if fsExists fs p then fs.length else fs.length + 1 := by
  induction fs with
  | nil => simp [fsSet, fsExists, fsLookup]
  | cons hd t ih =>
    obtain ⟨q, n⟩ := hd
    by_cases hqp : q = p
    · subst hqp
      simp [fsSet, fsExists, fsLookup]
    · simp only [fsSet, if_neg hqp, List.length_cons, ih, fsExists, fsLookup,
        if_neg hqp]
      by_cases h : (fsLookup t p).isSome <;> simp [h]

/-! Characterizations of the export attempt and of one loop step. -/

theorem execExport_missing (env : Env) (pathOld pathNew : String) (date : Int)
    (fs : FSType) (h : pathOld = "" ∨ fsExists fs pathOld = false) :
    execExport env pathOld pathNew date fs = (some missingSourceReason, fs) := by
  unfold execExport
  rw [if_pos h]

theorem execExport_copyErr (env : Env) (pathOld pathNew : String) (date : Int)
    (fs : FSType) (e : String)
    (h1 : pathOld ≠ "") (h2 : fsExists fs pathOld = true)
    (hc : env.copyErr pathOld pathNew = some e) :
    execExport env pathOld pathNew date fs = (some e, fs) := by
  unfold execExport
  rw [if_neg (by simp [h1, h2]), hc]

theorem execExport_utimeErr (env : Env) (pathOld pathNew : String) (date : Int)
    (fs : FSType) (e : String)
    (h1 : pathOld ≠ "") (h2 : fsExists fs pathOld = true)
    (hc : env.copyErr pathOld pathNew = none)
    (hu : env.utimeErr pathNew = some e) :
    execExport env pathOld pathNew date fs = (some e, fsSet fs pathNew env.now) := by
  unfold execExport
  rw [if_neg (by simp [h1, h2]), hc]
  simp only [hu]

theorem execExport_ok (env : Env) (pathOld pathNew : String) (date : Int)
    (fs : FSType)
    (h1 : pathOld ≠ "") (h2 : fsExists fs pathOld = true)
    (hc : env.copyErr pathOld pathNew = none)
    (hu : env.utimeErr pathNew = none) :
    execExport env pathOld pathNew date fs =
      (none, fsSet (fsSet fs pathNew env.now) pathNew date) := by
  unfold execExport
  rw [if_neg (by simp [h1, h2]), hc]
  simp only [hu]

theorem execExport_none_inv (env : Env) (pathOld pathNew : String) (date : Int)
    (fs fs1 : FSType)
    (h : execExport env pathOld pathNew date fs = (none, fs1)) :
    fs1 = fsSet (fsSet fs pathNew env.now) pathNew date := by
  unfold execExport at h
  split at h
  · simp at h
  · cases hc : env.copyErr pathOld pathNew with
    | some e => rw [hc] at h; simp at h
    | none =>
      rw [hc] at h
      cases hu : env.utimeErr pathNew with
      | some e => simp only [hu] at h; simp at h
      | none => simp only [hu] at h; exact (Prod.mk.injEq .. ▸ h).2.symm

theorem stepRecord_skip (cfg : Config) (env : Env) (i : Nat) (row : Row) (st : St)
    (hk : keyOf cfg env i ≠ 10) :
    stepRecord cfg env i row st = (Outcome.Skipped, st) := by
  unfold stepRecord
  rw [if_neg hk]

theorem stepRecord_exec_none (cfg : Config) (env : Env) (i : Nat) (row : Row)
    (st : St) (fs1 : FSType) (hk : keyOf cfg env i = 10)
    (he : execExport env (sourceAbs cfg row) (destPath cfg env row) (dateOf row) st.fs
      = (none, fs1)) :
    stepRecord cfg env i row st =
      (Outcome.Exported, { st with fs := fs1, success := st.success + 1 }) := by
  unfold stepRecord
  rw [if_pos hk, he]

theorem stepRecord_exec_some (cfg : Config) (env : Env) (i : Nat) (row : Row)
    (st : St) (fs1 : FSType) (e : String) (hk : keyOf cfg env i = 10)
    (he : execExport env (sourceAbs cfg row) (destPath cfg env row) (dateOf row) st.fs
      = (some e, fs1)) :
    stepRecord cfg env i row st =
      (Outcome.Failed e,
        { st with fs := fs1, log := st.log ++ [logLine env row e],
                  failed := st.failed + 1 }) := by
  unfold stepRecord
  rw [if_pos hk, he]

/-- C1: a record decided Export whose resolved source path is empty or not
present on the filesystem always fails with the missing-source reason,
`failed_count` rises by exactly one, `success_count` is unchanged, and the
filesystem is untouched, so no destination file is created. -/
theorem missing_source_fails (cfg : Config) (env : Env) (i : Nat) (row : Row)
    (st : St) (hk : keyOf cfg env i = 10)
    (hmiss : sourceAbs cfg row = "" ∨ fsExists st.fs (sourceAbs cfg row) = false) :
    (stepRecord cfg env i row st).1 = Outcome.Failed missingSourceReason ∧
    (stepRecord cfg env i row st).2.failed = st.failed + 1 ∧
    (stepRecord cfg env i row st).2.success = st.success ∧
    (stepRecord cfg env i row st).2.fs = st.fs := by
  have he := execExport_missing env (sourceAbs cfg row) (destPath cfg env row)
    (dateOf row) st.fs hmiss
  rw [stepRecord_exec_some cfg env i row st st.fs missingSourceReason hk he]
  exact ⟨rfl, rfl, rfl, rfl⟩

theorem missing_source_fails_witness :
    (keyOf wCfgBatch wEnv 0 = 10 ∧
      (sourceAbs wCfgBatch rNoPath = "" ∨
        fsExists wSt.fs (sourceAbs wCfgBatch rNoPath) = false)) ∧
    (stepRecord wCfgBatch wEnv 0 rNoPath wSt).1 = Outcome.Failed missingSourceReason ∧
    (stepRecord wCfgBatch wEnv 0 rNoPath wSt).2.failed = wSt.failed + 1 ∧
    (stepRecord wCfgBatch wEnv 0 rNoPath wSt).2.success = wSt.success ∧
    (stepRecord wCfgBatch wEnv 0 rNoPath wSt).2.fs = wSt.fs :=
  ⟨⟨by decide, by decide⟩,
    missing_source_fails wCfgBatch wEnv 0 rNoPath wSt (by decide) (by decide)⟩

/-- C3: in interactive mode, any keystroke other than the confirm key 10
(the escape key 27 included) leaves the state entirely unchanged: no copy,
no destination file, no counter or log change. -/
theorem other_key_skips (cfg : Config) (env : Env) (i : Nat) (row : Row) (st : St)
    (hint : cfg.all = false) (hk : env.keys i ≠ 10) :
    stepRecord cfg env i row st = (Outcome.Skipped, st) := by
  apply stepRecord_skip
  unfold keyOf
  rw [hint]
  simpa using hk

theorem other_key_skips_witness :
    (wCfgInter.all = false ∧ wEnvOther.keys 0 ≠ 10) ∧
    stepRecord wCfgInter wEnvOther 0 r1 wSt = (Outcome.Skipped, wSt) :=
  ⟨⟨by decide, by decide⟩,
    other_key_skips wCfgInter wEnvOther 0 r1 wSt (by decide) (by decide)⟩

/-- C4: for a record decided Export the executor propagates nothing: the
outcome is Exported or Failed with some reason; an exception injected
during the copy (and likewise during the timestamp setting) is caught and
reported as Failed with exactly that message while the failure counter
rises; and the loop always proceeds to the remaining records. -/
theorem executor_never_propagates (cfg : Config) (env : Env) (i : Nat) (row : Row)
    (st : St) (rs : List Row) (hk : keyOf cfg env i = 10) :
    ((stepRecord cfg env i row st).1 = Outcome.Exported ∨
      ∃ r, (stepRecord cfg env i row st).1 = Outcome.Failed r) ∧
    (∀ e, env.copyErr (sourceAbs cfg row) (destPath cfg env row) = some e →
      sourceAbs cfg row ≠ "" → fsExists st.fs (sourceAbs cfg row) = true →
      (stepRecord cfg env i row st).1 = Outcome.Failed e ∧
      (stepRecord cfg env i row st).2.failed = st.failed + 1) ∧
    (∀ e, env.copyErr (sourceAbs cfg row) (destPath cfg env row) = none →
      env.utimeErr (destPath cfg env row) = some e →
      sourceAbs cfg row ≠ "" → fsExists st.fs (sourceAbs cfg row) = true →
      (stepRecord cfg env i row st).1 = Outcome.Failed e) ∧
    runRows cfg env (row :: rs) i st =
      runRows cfg env rs (i + 1) (stepRecord cfg env i row st).2 := by
  refine ⟨?_, ?_, ?_, rfl⟩
  · rcases hE : execExport env (sourceAbs cfg row) (destPath cfg env row)
      (dateOf row) st.fs with ⟨o, fs1⟩
    cases o with
    | none =>
      left
      rw [stepRecord_exec_none cfg env i row st fs1 hk hE]
    | some e =>
      right
      exact ⟨e, by rw [stepRecord_exec_some cfg env i row st fs1 e hk hE]⟩
  · intro e hc h1 h2
    have hE := execExport_copyErr env (sourceAbs cfg row) (destPath cfg env row)
      (dateOf row) st.fs e h1 h2 hc
    rw [stepRecord_exec_some cfg env i row st st.fs e hk hE]
    exact ⟨rfl, rfl⟩
  · intro e hc hu h1 h2
    have hE := execExport_utimeErr env (sourceAbs cfg row) (destPath cfg env row)
      (dateOf row) st.fs e h1 h2 hc hu
    rw [stepRecord_exec_some cfg env i row st _ e hk hE]

theorem executor_never_propagates_witness :
    keyOf wCfgBatch wEnvErr 0 = 10 ∧
    (stepRecord wCfgBatch wEnvErr 0 r1 wSt).1 = Outcome.Failed "Permission denied" ∧
    runRows wCfgBatch wEnvErr [r1, r3] 0 wSt =
      runRows wCfgBatch wEnvErr [r3] 1 (stepRecord wCfgBatch wEnvErr 0 r1 wSt).2 := by
  have h := executor_never_propagates wCfgBatch wEnvErr 0 r1 wSt [r3] (by decide)
  exact ⟨by decide, (h.2.1 "Permission denied" (by decide) (by decide) (by decide)).1,
    h.2.2.2⟩

/-- C5: a record whose step outcome is Exported has its destination file
stamped with the recording timestamp plus the store-epoch offset (a value
that never mentions the wall clock at copy time). -/
theorem exported_mtime (cfg : Config) (env : Env) (i : Nat) (row : Row) (st : St)
    (hexp : (stepRecord cfg env i row st).1 = Outcome.Exported) :
    fsLookup (stepRecord cfg env i row st).2.fs (destPath cfg env row) =
      some (row.zdate + dtOffset) := by
  by_cases hk : keyOf cfg env i = 10
  · rcases hE : execExport env (sourceAbs cfg row) (destPath cfg env row)
      (dateOf row) st.fs with ⟨o, fs1⟩
    cases o with
    | none =>
      have hinv := execExport_none_inv env (sourceAbs cfg row) (destPath cfg env row)
        (dateOf row) st.fs fs1 hE
      rw [stepRecord_exec_none cfg env i row st fs1 hk hE]
      show fsLookup fs1 (destPath cfg env row) = _
      rw [hinv, fsLookup_fsSet, if_pos rfl]
      rfl
    | some e =>
      rw [stepRecord_exec_some cfg env i row st fs1 e hk hE] at hexp
      simp at hexp
  · rw [stepRecord_skip cfg env i row st hk] at hexp
    simp at hexp

theorem exported_mtime_witness :
    (stepRecord wCfgBatch wEnv 0 r1 wSt).1 = Outcome.Exported ∧
    fsLookup (stepRecord wCfgBatch wEnv 0 r1 wSt).2.fs (destPath wCfgBatch wEnv r1) =
      some (r1.zdate + dtOffset) :=
  ⟨by decide, exported_mtime wCfgBatch wEnv 0 r1 wSt (by decide)⟩

/-- C6: the log starts as the header line holding the run start time
followed by a separator of fifty equals characters, and every failure
appends to it exactly one line reading FAILED, then the date string, the
memo label and the reason, separated by pipes. -/
theorem failure_appends_line (cfg : Config) (env : Env) (i : Nat) (row : Row)
    (st : St) (fs0 : FSType) (e : String)
    (hfail : (stepRecord cfg env i row st).1 = Outcome.Failed e) :
    (initSt env fs0).log =
      ["Voice Memos Export Log - " ++ env.nowStr,
       String.mk (List.replicate 50 '=')] ∧
    (stepRecord cfg env i row st).2.log =
      st.log ++ ["FAILED: " ++ dateStrOf env row ++ " | Memo: " ++
        labelOf row.zlabel ++ " | Reason: " ++ e] := by
  refine ⟨rfl, ?_⟩
  by_cases hk : keyOf cfg env i = 10
  · rcases hE : execExport env (sourceAbs cfg row) (destPath cfg env row)
      (dateOf row) st.fs with ⟨o, fs1⟩
    cases o with
    | none =>
      rw [stepRecord_exec_none cfg env i row st fs1 hk hE] at hfail
      simp at hfail
    | some e2 =>
      have hs := stepRecord_exec_some cfg env i row st fs1 e2 hk hE
      rw [hs] at hfail
      simp only [Outcome.Failed.injEq] at hfail
      subst hfail
      rw [hs]
      rfl
  · rw [stepRecord_skip cfg env i row st hk] at hfail
    simp at hfail

theorem failure_appends_line_witness :
    (stepRecord wCfgBatch wEnvErr 0 r1 wSt).1 = Outcome.Failed "Permission denied" ∧
    (initSt wEnvErr wFs).log =
      ["Voice Memos Export Log - " ++ wEnvErr.nowStr,
       String.mk (List.replicate 50 '=')] ∧
    (stepRecord wCfgBatch wEnvErr 0 r1 wSt).2.log =
      wSt.log ++ ["FAILED: " ++ dateStrOf wEnvErr r1 ++ " | Memo: " ++
        labelOf r1.zlabel ++ " | Reason: " ++ "Permission denied"] :=
  ⟨by decide,
    failure_appends_line wCfgBatch wEnvErr 0 r1 wSt wFs "Permission denied" (by decide)⟩

/-! String lemmas about sanitization and path shapes. -/

theorem map_self_of_fixed {α : Type} (f : α → α) :
    ∀ l : List α, (∀ a ∈ l, f a = a) → l.map f = l := by
  intro l
  induction l with
  | nil => intro; rfl
  | cons a t ih =>
    intro h
    simp only [List.map_cons, h a (by simp), ih fun b hb => h b (by simp [hb])]

theorem deslash_fix (c : Char) : deslash (deslash c) = deslash c := by
  unfold deslash
  by_cases h : c = '/' <;> simp [h]

theorem sanitizeLabel_mem (s : String) (c : Char)
    (hc : c ∈ (sanitizeLabel s).data) : c.toNat < 128 ∧ deslash c = c := by
  have hc2 : c ∈ (s.data.filter fun c => c.toNat < 128).map deslash := hc
  rcases List.mem_map.mp hc2 with ⟨b, hb, hdb⟩
  have hbp : b.toNat < 128 := by
    have := (List.mem_filter.mp hb).2
    simpa using this
  subst hdb
  refine ⟨?_, deslash_fix b⟩
  unfold deslash
  by_cases hb4 : b = '/'
  · simp [hb4]
  · simpa [hb4] using hbp

/-- C8: the sanitization of line 93 (drop non-ascii characters, replace
slashes with underscores) is idempotent on every label string. -/
theorem sanitize_idempotent (s : String) :
    sanitizeLabel (sanitizeLabel s) = sanitizeLabel s := by
  show String.mk (((sanitizeLabel s).data.filter fun c => c.toNat < 128).map deslash)
    = sanitizeLabel s
  rw [List.filter_eq_self.mpr fun c hc => by simpa using (sanitizeLabel_mem s c hc).1]
  rw [map_self_of_fixed deslash _ fun c hc => (sanitizeLabel_mem s c hc).2]

/-- C9: a non-empty label all of whose characters are outside ascii
sanitizes to the empty string, not to the placeholder, so the destination
file name is only the source extension, date-prefixed when requested. -/
theorem nonascii_label_empty (cfg : Config) (env : Env) (row : Row) (s : String)
    (hrow : row.zlabel = some s) (hne : s ≠ "")
    (hna : ∀ c ∈ s.data, 128 ≤ c.toNat) :
    labelOf row.zlabel = "" ∧
    destFilename cfg env row =
      (if cfg.dateInName then env.strftime cfg.dateInNameFormat (dateOf row) else "")
        ++ splitextExt (sourceAbs cfg row) := by
  have hlab : labelOf row.zlabel = "" := by
    rw [hrow]
    show (if s = "" then "Untitled" else sanitizeLabel s) = ""
    rw [if_neg hne]
    unfold sanitizeLabel
    rw [List.filter_eq_nil_iff.mpr fun c hc => by simp [Nat.not_lt.mpr (hna c hc)]]
    rfl
  refine ⟨hlab, ?_⟩
  simp only [destFilename, hlab]
  by_cases hd : cfg.dateInName = true
  · rw [if_pos hd, if_pos hd]
    rfl
  · rw [if_neg hd, if_neg hd]

theorem slash_not_mem_sanitizeLabel (s : String) : '/' ∉ (sanitizeLabel s).data := by
  intro h
  have h2 : '/' ∈ (s.data.filter fun c => c.toNat < 128).map deslash := h
  rcases List.mem_map.mp h2 with ⟨b, _, hdb⟩
  unfold deslash at hdb
  by_cases hb4 : b = '/'
  · rw [if_pos hb4] at hdb
    exact absurd hdb (by decide)
  · rw [if_neg hb4] at hdb
    exact hb4 hdb

theorem startsWithSlash_of_not_mem (s : String) (h : '/' ∉ s.data) :
    startsWithSlash s = false := by
  unfold startsWithSlash
  cases hs : s.data with
  | nil => rfl
  | cons c t =>
    have hne : c ≠ '/' := fun hc => h (by rw [hs, hc]; exact List.mem_cons_self _ _)
    simpa using hne

theorem startsWithSlash_labelOf (l : Option String) :
    startsWithSlash (labelOf l) = false := by
  cases l with
  | none => decide
  | some s =>
    show startsWithSlash (if s = "" then "Untitled" else sanitizeLabel s) = false
    by_cases hs : s = ""
    · rw [if_pos hs]; decide
    · rw [if_neg hs]
      exact startsWithSlash_of_not_mem _ (slash_not_mem_sanitizeLabel s)

theorem append_startsWithSlash (a b : String)
    (ha : startsWithSlash a = false) (hb : startsWithSlash b = false) :
    startsWithSlash (a ++ b) = false := by
  unfold startsWithSlash at *
  have hd : (a ++ b).data = a.data ++ b.data := rfl
  rw [hd]
  cases hla : a.data with
  | nil => simpa using hb
  | cons c t =>
    rw [hla] at ha
    simpa using ha

theorem rfindChar_head_drop (a : Char) (l : List Char) (k : Nat)
    (h : rfindChar a l = some k) : (l.drop k).head? = some a := by
  induction l generalizing k with
  | nil => simp [rfindChar] at h
  | cons c t ih =>
    unfold rfindChar at h
    cases ht : rfindChar a t with
    | some j =>
      rw [ht] at h
      cases h
      simpa using ih j ht
    | none =>
      rw [ht] at h
      by_cases hc : c = a
      · rw [if_pos hc] at h
        cases h
        simp [hc]
      · rw [if_neg hc] at h
        cases h

theorem startsWithSlash_splitextExt (p : String) :
    startsWithSlash (splitextExt p) = false := by
  unfold splitextExt
  cases hdot : rfindChar '.' p.data with
  | none =>
    cases hsep : rfindChar '/' p.data with
    | none =>
      simp only [hdot, hsep]
      rw [if_neg (by omega)]
      decide
    | some m =>
      simp only [hdot, hsep]
      rw [if_neg (by omega)]
      decide
  | some k =>
    have hdrop : (p.data.drop ((k : Int)).toNat).head? = some '.' := by
      rw [Int.toNat_natCast]
      exact rfindChar_head_drop '.' p.data k hdot
    have hmk : startsWithSlash (String.mk (p.data.drop ((k : Int)).toNat)) = false := by
      unfold startsWithSlash
      cases hd : p.data.drop ((k : Int)).toNat with
      | nil => rfl
      | cons c t =>
        rw [hd] at hdrop
        simp only [List.head?, Option.some.injEq] at hdrop
        subst hdrop
        rfl
    cases hsep : rfindChar '/' p.data with
    | none =>
      simp only [hdot, hsep]
      rw [if_pos (by omega)]
      split
      · rfl
      · exact hmk
    | some m =>
      simp only [hdot, hsep]
      by_cases hlt : (m : Int) < (k : Int)
      · rw [if_pos hlt]
        split
        · rfl
        · exact hmk
      · rw [if_neg hlt]
        rfl

theorem pathJoin_rel (a b : String)
    (hb : startsWithSlash b = false) (ha : a ≠ "") :
    pathJoin a b = if endsWithSlash a then a ++ b else a ++ "/" ++ b := by
  unfold pathJoin
  rw [if_neg (by simp [hb])]
  by_cases he : endsWithSlash a = true
  · rw [if_pos (Or.inr he), if_pos he]
  · rw [if_neg (not_or.mpr ⟨ha, he⟩), if_neg he]

/-- C7: for a recording with a non-empty stored path the absolute source
is the stored path itself when absolute and the stored path joined onto
the database directory otherwise, and the destination is the export root
(with a slash appended when it lacks one) followed by the computed file
name, hence inside the export root. -/
theorem resolved_paths_inside_root (cfg : Config) (env : Env) (row : Row) (p : String)
    (hp : row.zpath = some p) (hne : p ≠ "")
    (hroot : cfg.exportPath ≠ "")
    (hfmt : cfg.dateInName = true →
      startsWithSlash (env.strftime cfg.dateInNameFormat (dateOf row)) = false) :
    (startsWithSlash p = true → sourceAbs cfg row = p) ∧
    (startsWithSlash p = false →
      sourceAbs cfg row = pathJoin (dirname cfg.dbPath) p) ∧
    destPath cfg env row =
      (if endsWithSlash cfg.exportPath then cfg.exportPath
       else cfg.exportPath ++ "/") ++ destFilename cfg env row := by
  have hraw : rawPath row = p := by rw [rawPath, hp]; rfl
  refine ⟨?_, ?_, ?_⟩
  · intro hs
    unfold sourceAbs
    rw [hraw, if_neg hne, if_pos hs]
  · intro hs
    unfold sourceAbs
    rw [hraw, if_neg hne, if_neg (by simp [hs])]
  · have hfn : startsWithSlash (destFilename cfg env row) = false := by
      unfold destFilename
      by_cases hd : cfg.dateInName = true
      · rw [if_pos hd]
        exact append_startsWithSlash _ _ (hfmt hd)
          (append_startsWithSlash _ _ (startsWithSlash_labelOf _)
            (startsWithSlash_splitextExt _))
      · rw [if_neg hd]
        exact append_startsWithSlash _ _ (startsWithSlash_labelOf _)
          (startsWithSlash_splitextExt _)
    unfold destPath
    rw [hraw, if_neg hne, pathJoin_rel _ _ hfn hroot]
    by_cases he : endsWithSlash cfg.exportPath = true
    · rw [if_pos he, if_pos he]
    · rw [if_neg he, if_neg he]

theorem resolved_paths_inside_root_witness :
    (r1.zpath = some "a.m4a" ∧ ("a.m4a" : String) ≠ "" ∧ wCfgBatch.exportPath ≠ "") ∧
    sourceAbs wCfgBatch r1 = pathJoin (dirname wCfgBatch.dbPath) "a.m4a" ∧
    destPath wCfgBatch wEnv r1 =
      (if endsWithSlash wCfgBatch.exportPath then wCfgBatch.exportPath
       else wCfgBatch.exportPath ++ "/") ++ destFilename wCfgBatch wEnv r1 := by
  have h := resolved_paths_inside_root wCfgBatch wEnv r1 "a.m4a" rfl (by decide)
    (by decide) (by decide)
  exact ⟨⟨rfl, by decide, by decide⟩, h.2.1 (by decide), h.2.2⟩

theorem nonascii_label_empty_witness :
    (rUni.zlabel = some "é" ∧ ("é" : String) ≠ "" ∧ ∀ c ∈ ("é" : String).data, 128 ≤ c.toNat) ∧
    labelOf rUni.zlabel = "" ∧
    destFilename wCfgBatch wEnv rUni =
      (if wCfgBatch.dateInName then
        wEnv.strftime wCfgBatch.dateInNameFormat (dateOf rUni) else "")
        ++ splitextExt (sourceAbs wCfgBatch rUni) :=
  ⟨⟨rfl, by decide, by decide⟩,
    nonascii_label_empty wCfgBatch wEnv rUni "é" rfl (by decide) (by decide)⟩

/-! Counters: per-step case split and run-level bounds. -/

theorem stepRecord_counters (cfg : Config) (env : Env) (i : Nat) (row : Row) (st : St) :
    ((stepRecord cfg env i row st).2.success = st.success ∧
      (stepRecord cfg env i row st).2.failed = st.failed) ∨
    ((stepRecord cfg env i row st).2.success = st.success + 1 ∧
      (stepRecord cfg env i row st).2.failed = st.failed) ∨
    ((stepRecord cfg env i row st).2.success = st.success ∧
      (stepRecord cfg env i row st).2.failed = st.failed + 1) := by
  by_cases hk : keyOf cfg env i = 10
  · rcases hE : execExport env (sourceAbs cfg row) (destPath cfg env row)
      (dateOf row) st.fs with ⟨o, fs1⟩
    cases o with
    | none =>
      rw [stepRecord_exec_none cfg env i row st fs1 hk hE]
      exact Or.inr (Or.inl ⟨rfl, rfl⟩)
    | some e =>
      rw [stepRecord_exec_some cfg env i row st fs1 e hk hE]
      exact Or.inr (Or.inr ⟨rfl, rfl⟩)
  · rw [stepRecord_skip cfg env i row st hk]
    exact Or.inl ⟨rfl, rfl⟩

theorem runRows_counters (cfg : Config) (env : Env) :
    ∀ (rows : List Row) (i : Nat) (st : St),
      st.success ≤ (runRows cfg env rows i st).success ∧
      st.failed ≤ (runRows cfg env rows i st).failed ∧
      (runRows cfg env rows i st).success + (runRows cfg env rows i st).failed ≤
        st.success + st.failed + rows.length := by
  intro rows
  induction rows with
  | nil =>
    intro i st
    simp [runRows]
  | cons r rs ih =>
    intro i st
    have hrun : runRows cfg env (r :: rs) i st =
      runRows cfg env rs (i + 1) (stepRecord cfg env i r st).2 := rfl
    rw [hrun]
    obtain ⟨ha, hb, hc⟩ := ih (i + 1) (stepRecord cfg env i r st).2
    rcases stepRecord_counters cfg env i r st with ⟨h1, h2⟩ | ⟨h1, h2⟩ | ⟨h1, h2⟩ <;>
      exact ⟨by omega, by omega, by simpa [List.length_cons] using by omega⟩

/-- C10: one loop step raises at most one of the two counters and by
exactly one, the counters never decrease over a run, and at the end of a
run their sum is at most the number of records read. -/
theorem counters_monotone_exclusive (cfg : Config) (env : Env) :
    (∀ (i : Nat) (row : Row) (st : St),
      ((stepRecord cfg env i row st).2.success = st.success ∧
        (stepRecord cfg env i row st).2.failed = st.failed) ∨
      ((stepRecord cfg env i row st).2.success = st.success + 1 ∧
        (stepRecord cfg env i row st).2.failed = st.failed) ∨
      ((stepRecord cfg env i row st).2.success = st.success ∧
        (stepRecord cfg env i row st).2.failed = st.failed + 1)) ∧
    (∀ (rows : List Row) (i : Nat) (st : St),
      st.success ≤ (runRows cfg env rows i st).success ∧
      st.failed ≤ (runRows cfg env rows i st).failed) ∧
    (∀ (rows : List Row) (fs0 : FSType),
      (runMain cfg env rows fs0).success + (runMain cfg env rows fs0).failed ≤
        rows.length) := by
  refine ⟨stepRecord_counters cfg env,
    fun rows i st => ⟨(runRows_counters cfg env rows i st).1,
      (runRows_counters cfg env rows i st).2.1⟩,
    fun rows fs0 => ?_⟩
  have h := (runRows_counters cfg env rows 0 (initSt env fs0)).2.2
  simpa [runMain, initSt] using h

/-- Two successful batch exports whose labels coincide produce a single
destination file: the second copy overwrites the first at the same path,
so the run creates one file, not two. -/
theorem batch_two_records_one_file :
    (runMain wCfgBatch wEnv [r1, r2] wFs).success = 2 ∧
    (runMain wCfgBatch wEnv [r1, r2] wFs).failed = 0 ∧
    destPath wCfgBatch wEnv r1 = destPath wCfgBatch wEnv r2 ∧
    (runMain wCfgBatch wEnv [r1, r2] wFs).fs.length = wFs.length + 1 := by
  decide

theorem runRows_batch_ok (cfg : Config) (env : Env)
    (hall : cfg.all = true)
    (hnc : ∀ s d, env.copyErr s d = none)
    (hnu : ∀ d, env.utimeErr d = none) :
    ∀ (rows : List Row) (i : Nat) (st : St),
      (∀ r ∈ rows, sourceAbs cfg r ≠ "" ∧ fsExists st.fs (sourceAbs cfg r) = true) →
      (∀ r ∈ rows, fsExists st.fs (destPath cfg env r) = false) →
      (rows.map fun r => destPath cfg env r).Nodup →
      (runRows cfg env rows i st).success = st.success + rows.length ∧
      (runRows cfg env rows i st).failed = st.failed ∧
      (runRows cfg env rows i st).fs.length = st.fs.length + rows.length := by
  intro rows
  induction rows with
  | nil =>
    intro i st _ _ _
    simp [runRows]
  | cons r rs ih =>
    intro i st hsrc hdst hnodup
    have hk : keyOf cfg env i = 10 := by simp [keyOf, hall]
    have hs1 := (hsrc r (by simp)).1
    have hs2 := (hsrc r (by simp)).2
    have hE := execExport_ok env (sourceAbs cfg r) (destPath cfg env r) (dateOf r)
      st.fs hs1 hs2 (hnc _ _) (hnu _)
    have hstep := stepRecord_exec_none cfg env i r st _ hk hE
    have hrun : runRows cfg env (r :: rs) i st =
      runRows cfg env rs (i + 1) (stepRecord cfg env i r st).2 := rfl
    have hfresh : fsExists st.fs (destPath cfg env r) = false := hdst r (by simp)
    have hlen1 : (fsSet st.fs (destPath cfg env r) env.now).length = st.fs.length + 1 := by
      rw [length_fsSet, hfresh]
      simp
    have hex1 : fsExists (fsSet st.fs (destPath cfg env r) env.now) (destPath cfg env r)
        = true := by
      rw [fsExists_fsSet]
      simp
    have hlen2 : (fsSet (fsSet st.fs (destPath cfg env r) env.now) (destPath cfg env r)
        (dateOf r)).length = st.fs.length + 1 := by
      rw [length_fsSet, hex1]
      simpa using hlen1
    have hdne : ∀ r2 ∈ rs, destPath cfg env r2 ≠ destPath cfg env r := by
      intro r2 hr2 he
      exact (List.nodup_cons.mp hnodup).1
        (List.mem_map.mpr ⟨r2, hr2, he⟩)
    obtain ⟨ha, hb, hc⟩ := ih (i + 1)
      { st with fs := fsSet (fsSet st.fs (destPath cfg env r) env.now) (destPath cfg env r) (dateOf r), success := st.success + 1 }
      (by
        intro r2 hr2
        refine ⟨(hsrc r2 (by simp [hr2])).1, ?_⟩
        exact fsExists_fsSet_of_exists _ _ _ _
          (fsExists_fsSet_of_exists _ _ _ _ (hsrc r2 (by simp [hr2])).2))
      (by
        intro r2 hr2
        show fsExists _ (destPath cfg env r2) = false
        rw [fsExists_fsSet, if_neg (fun hh => hdne r2 hr2 hh.symm),
          fsExists_fsSet, if_neg (fun hh => hdne r2 hr2 hh.symm)]
        exact hdst r2 (by simp [hr2]))
      ((List.nodup_cons.mp hnodup).2)
    rw [hrun, hstep] at *
    refine ⟨?_, ?_, ?_⟩
    · rw [ha]
      simp [List.length_cons]
      omega
    · rw [hb]
    · rw [hc]
      simp only [List.length_cons]
      omega

/-- C2 (amended): in batch mode every record is decided Export without
prompting, and on N records whose sources all exist, with no injected I/O
error, the run ends with success equal to N and no failures; it creates
exactly N files provided the N resolved destination paths are pairwise
distinct and none exists beforehand (records sharing a destination
overwrite one another, as the two-record counterexample shows). -/
theorem batch_all_present (cfg : Config) (env : Env) (rows : List Row) (fs0 : FSType)
    (hall : cfg.all = true)
    (hnc : ∀ s d, env.copyErr s d = none)
    (hnu : ∀ d, env.utimeErr d = none)
    (hsrc : ∀ r ∈ rows, sourceAbs cfg r ≠ "" ∧ fsExists fs0 (sourceAbs cfg r) = true)
    (hdst : ∀ r ∈ rows, fsExists fs0 (destPath cfg env r) = false)
    (hnodup : (rows.map fun r => destPath cfg env r).Nodup) :
    (∀ j, keyOf cfg env j = 10) ∧
    (runMain cfg env rows fs0).success = rows.length ∧
    (runMain cfg env rows fs0).failed = 0 ∧
    (runMain cfg env rows fs0).fs.length = fs0.length + rows.length := by
  have h := runRows_batch_ok cfg env hall hnc hnu rows 0 (initSt env fs0)
    hsrc hdst hnodup
  refine ⟨fun j => by simp [keyOf, hall], ?_, ?_, ?_⟩
  · simpa [runMain, initSt] using h.1
  · simpa [runMain, initSt] using h.2.1
  · simpa [runMain, initSt] using h.2.2

theorem batch_all_present_witness :
    (wCfgBatch.all = true ∧
      (∀ r ∈ [r1, r3], sourceAbs wCfgBatch r ≠ "" ∧
        fsExists wFs (sourceAbs wCfgBatch r) = true) ∧
      (∀ r ∈ [r1, r3], fsExists wFs (destPath wCfgBatch wEnv r) = false) ∧
      ([r1, r3].map fun r => destPath wCfgBatch wEnv r).Nodup) ∧
    (runMain wCfgBatch wEnv [r1, r3] wFs).success = 2 ∧
    (runMain wCfgBatch wEnv [r1, r3] wFs).failed = 0 ∧
    (runMain wCfgBatch wEnv [r1, r3] wFs).fs.length = wFs.length + 2 := by
  have h := batch_all_present wCfgBatch wEnv [r1, r3] wFs (by decide)
    (fun _ _ => rfl) (fun _ => rfl) (by decide) (by decide) (by decide)
  exact ⟨⟨by decide, by decide, by decide, by decide⟩, h.2.1, h.2.2.1, h.2.2.2⟩
